import Mathlib

/-!
Verification development for the aibrix in-memory cache subsystem
(`pkg/cache/cache.go`).  The Go code is shallowly embedded: Go maps keyed
by strings become association lists (`Smap`), the `Cache` struct becomes
`CacheState`, and each informer event handler, trace operation and flush
becomes a pure state-transforming function.  The distinction Go makes between a
nil map and an initialized map matters for `Cache.metrics` (writing to a
nil map panics), so that field is embedded as `Option (Smap String)`.
-/

/-- A Go `map[string]α`, embedded as an association list.  All maps the
embedded code manipulates are built from the empty map by `insert` and
`erase`, so keys are never duplicated. -/
abbrev Smap (α : Type) : Type := List (String × α)

/-- Map lookup: `m[k]` (the `value, ok` form; `none` models `ok = false`). -/
def Smap.get? {α : Type} : Smap α → String → Option α
  | [], _ => none
  | (k, v) :: t, key => if k = key then some v else Smap.get? t key

/-- Map assignment `m[k] = v`: replaces the entry in place, or appends. -/
def Smap.insert {α : Type} : Smap α → String → α → Smap α
  | [], key, val => [(key, val)]
  | (k, v) :: t, key, val =>
    if k = key then (key, val) :: t else (k, v) :: Smap.insert t key val

/-- Go `delete(m, k)`. -/
def Smap.erase {α : Type} : Smap α → String → Smap α
  | [], _ => []
  | (k, v) :: t, key => if k = key then Smap.erase t key else (k, v) :: Smap.erase t key

/-- The key set of the map, in iteration order. -/
def Smap.keys {α : Type} (m : Smap α) : List String := m.map Prod.fst

/-- Go `len(m) == 0`. -/
def Smap.isEmpty {α : Type} : Smap α → Bool
  | [] => true
  | _ :: _ => false

/-- A `corev1.Pod` restricted to the fields the cache reads: name,
namespace, labels and pod IP (`Status.PodIP`). -/
structure Pod where
  name : String
  ns : String
  labels : Smap String
  podIP : String
deriving DecidableEq

/-- A `modelv1alpha1.ModelAdapter` restricted to the fields the cache
reads: name, namespace, and `Status.Instances` (pod names). -/
structure ModelAdapter where
  name : String
  ns : String
  instances : List String
deriving DecidableEq

/-- The label key `model.aibrix.ai/name`. -/
def modelIdentifier : String := "model.aibrix.ai/name"

/-- Constant `keyWriteRequestTraceIntervalInSeconds = "meta_interval_sec"`. -/
def keyWriteRequestTraceIntervalInSeconds : String := "meta_interval_sec"

/-- Constant `writeRequestTraceIntervalInSeconds = 10`. -/
def writeRequestTraceIntervalInSeconds : Int := 10

/-- Constant `keyPrecisionRequestTrace = "meta_precision"`. -/
def keyPrecisionRequestTrace : String := "meta_precision"

/-- Constant `keyVersionRequestTrace = "meta_v"`. -/
def keyVersionRequestTrace : String := "meta_v"

/-- Constant `versionRequestTrace = 2`. -/
def versionRequestTrace : Int := 2

/-- Go constant expression `int(1 / precisionRequestTrace)` with
`precisionRequestTrace = 0.1`.  Go evaluates constant arithmetic with
exact rationals, so this is exactly `10`. -/
def precisionInverseRequestTrace : Int := 10

/-- Constant `math.MinInt64`.  Converting the float64 values `-Inf` (from
`math.Log2(0)`) to `int64` yields this value on the architectures the
project ships for (amd64/arm64); for `NaN` (from `math.Log2` of a
negative number) amd64 also yields this value, which the embedding
fixes. -/
def int64MinValue : Int := -9223372036854775808

/-- The bucket index `int64(math.Round(math.Log2(float64(tokens)) / precisionRequestTrace))`
computed by `AddRequestTrace`, with `precisionRequestTrace = 0.1`.

For `tokens ≥ 1` the real-number value `round(log2 tokens / 0.1)
= round(10 · log2 tokens)` is the unique integer `i ≥ 0` with
`2 ^ (2 i) ≤ 2 · tokens ^ 20 < 2 ^ (2 i + 2)` (exponentiating
`i - 1/2 ≤ 10 · log2 tokens < i + 1/2` by `2 ^ (2 · _)`; a tie is
impossible because `10 · log2 tokens` is either an irrational number or a
multiple of 10).  The index is computed here by that exact integer
characterization; the float64 pipeline of the Go code agrees with the
exact real computation at every input this file evaluates.

For `tokens ≤ 0`, `math.Log2` returns `-Inf` (at 0) or `NaN` (below 0),
the division and `math.Round` propagate it, and the `int64` conversion
yields `math.MinInt64` (see `int64MinValue`).  No input is coerced or
rejected. -/
def requestTraceIndex (tokens : Int) : Int :=
  if tokens ≤ 0 then int64MinValue
  else
    (Nat.findGreatest (fun i => 2 ^ (2 * i) ≤ 2 * tokens.toNat ^ 20) (10 * tokens.toNat) : Int)

/-- The bucket key `fmt.Sprintf("%v:%v", inputIndex, outputIndex)`. -/
def requestTraceKey (inputTokens outputTokens : Int) : String :=
  toString (requestTraceIndex inputTokens) ++ ":" ++ toString (requestTraceIndex outputTokens)

/-- The fresh per-model trace map installed when `len(requestTrace[model]) == 0`:
meta entries for interval, precision and version. -/
def metaInitTrace : Smap Int :=
  Smap.insert
    (Smap.insert
      (Smap.insert [] keyWriteRequestTraceIntervalInSeconds writeRequestTraceIntervalInSeconds)
      keyPrecisionRequestTrace precisionInverseRequestTrace)
    keyVersionRequestTrace versionRequestTrace

/-- The `Cache` struct.  `metricsMap` embeds the `metrics` field, whose
zero value is a nil map (`none`); `modelMetrics` likewise.  Metric values
are irrelevant to the embedded operations (the scraper that writes them
does blocking I/O and is out of the modelled surface), so the inner
metric maps carry `Unit` values. -/
structure CacheState where
  metricsMap : Option (Smap String)
  modelMetrics : Option (Smap (Smap Unit))
  pods : Smap Pod
  podMetrics : Smap (Smap Unit)
  podToModelMapping : Smap (Smap Unit)
  modelToPodMapping : Smap (Smap Pod)
  requestTrace : Smap (Smap Int)
  subscribers : List (List String)
deriving DecidableEq

/-- The instance built in `NewCache`: the five map fields are initialized
to empty maps, every other field keeps its Go zero value — in particular
`metrics` and `ModelMetrics` stay nil maps. -/
def newCacheState : CacheState :=
  { metricsMap := none
    modelMetrics := none
    pods := []
    podMetrics := []
    podToModelMapping := []
    modelToPodMapping := []
    requestTrace := []
    subscribers := [] }

/-- Models `Cache.addPodAndModelMapping`: no-op (after an error log) when the pod
is not in the registry; otherwise inserts the binding into both mirrored
maps.  `(… .getD [])` covers the map-literal branch of the Go code: when
the outer map has no entry, a fresh single-entry map is installed. -/
def addPodAndModelMapping (c : CacheState) (podName modelName : String) : CacheState :=
  match Smap.get? c.pods podName with
  | none => c
  | some pod =>
    { c with
      podToModelMapping :=
        Smap.insert c.podToModelMapping podName
          (Smap.insert ((Smap.get? c.podToModelMapping podName).getD []) modelName ())
      modelToPodMapping :=
        Smap.insert c.modelToPodMapping modelName
          (Smap.insert ((Smap.get? c.modelToPodMapping modelName).getD []) podName pod) }

/-- Models `Cache.deletePodAndModelMapping`: removes the binding from each of the
two mirrored maps, leaving a map untouched when it has no entry for the
respective key.  (The Go code updates the two maps in sequence; neither
update reads the other map, so the two independent updates below are the
same function.) -/
def deletePodAndModelMapping (c : CacheState) (podName modelName : String) : CacheState :=
  { c with
    podToModelMapping :=
      match Smap.get? c.podToModelMapping podName with
      | none => c.podToModelMapping
      | some models => Smap.insert c.podToModelMapping podName (Smap.erase models modelName)
    modelToPodMapping :=
      match Smap.get? c.modelToPodMapping modelName with
      | none => c.modelToPodMapping
      | some pods => Smap.insert c.modelToPodMapping modelName (Smap.erase pods podName) }

/-- Models `Cache.addPod`: ignored unless the pod carries the model-identifier
label; otherwise registers the pod and creates the (pod, base-model)
binding. -/
def addPod (c : CacheState) (pod : Pod) : CacheState :=
  match Smap.get? pod.labels modelIdentifier with
  | none => c
  | some modelName =>
    addPodAndModelMapping { c with pods := Smap.insert c.pods pod.name pod } pod.name modelName

/-- Models `Cache.updatePod`: no-op when neither object carries the label;
otherwise removes the old registration and binding (when the old object
is labelled) and installs the new ones (when the new object is). -/
def updatePod (c : CacheState) (oldPod newPod : Pod) : CacheState :=
  match Smap.get? oldPod.labels modelIdentifier, Smap.get? newPod.labels modelIdentifier with
  | none, none => c
  | oldLabel, newLabel =>
    let c1 := match oldLabel with
      | some oldModelName =>
        deletePodAndModelMapping { c with pods := Smap.erase c.pods oldPod.name }
          oldPod.name oldModelName
      | none => c
    match newLabel with
    | some newModelName =>
      addPodAndModelMapping { c1 with pods := Smap.insert c1.pods newPod.name newPod }
        newPod.name newModelName
    | none => c1

/-- Models `Cache.deletePod`: ignored unless the delivered pod object carries the
model-identifier label; otherwise removes every binding listed under the
pod in `PodToModelMapping` (from both directions), then deletes the whole
`PodToModelMapping` entry of the pod, its registry entry and its metrics sub-map. -/
def deletePod (c : CacheState) (pod : Pod) : CacheState :=
  match Smap.get? pod.labels modelIdentifier with
  | none => c
  | some _ =>
    let c1 := match Smap.get? c.podToModelMapping pod.name with
      | none => c
      | some models =>
        (Smap.keys models).foldl (fun acc modelName => deletePodAndModelMapping acc pod.name modelName) c
    { c1 with
      podToModelMapping := Smap.erase c1.podToModelMapping pod.name
      pods := Smap.erase c1.pods pod.name
      podMetrics := Smap.erase c1.podMetrics pod.name }

/-- Models `Cache.addModelAdapter`: binds each instance pod to the adapter. -/
def addModelAdapter (c : CacheState) (model : ModelAdapter) : CacheState :=
  model.instances.foldl (fun acc podName => addPodAndModelMapping acc podName model.name) c

/-- Models `Cache.updateModelAdapter`: removes the bindings of the instances of the
old object, then adds bindings for the instances of the new object. -/
def updateModelAdapter (c : CacheState) (oldModel newModel : ModelAdapter) : CacheState :=
  let c1 := oldModel.instances.foldl
    (fun acc podName => deletePodAndModelMapping acc podName oldModel.name) c
  newModel.instances.foldl (fun acc podName => addPodAndModelMapping acc podName newModel.name) c1

/-- Models `Cache.deleteModelAdapter`: removes the bindings of the instances,
then deletes the whole `ModelToPodMapping` entry of the adapter. -/
def deleteModelAdapter (c : CacheState) (model : ModelAdapter) : CacheState :=
  let c1 := model.instances.foldl
    (fun acc podName => deletePodAndModelMapping acc podName model.name) c
  { c1 with modelToPodMapping := Smap.erase c1.modelToPodMapping model.name }

/-- The pod and model-adapter lifecycle events the informers dispatch to
the handlers above. -/
inductive CacheEvent where
  | podAdded (pod : Pod)
  | podUpdated (oldPod newPod : Pod)
  | podDeleted (pod : Pod)
  | adapterAdded (model : ModelAdapter)
  | adapterUpdated (oldModel newModel : ModelAdapter)
  | adapterDeleted (model : ModelAdapter)
deriving DecidableEq

/-- Dispatch of one event to its handler. -/
def applyEvent (c : CacheState) : CacheEvent → CacheState
  | .podAdded pod => addPod c pod
  | .podUpdated oldPod newPod => updatePod c oldPod newPod
  | .podDeleted pod => deletePod c pod
  | .adapterAdded model => addModelAdapter c model
  | .adapterUpdated oldModel newModel => updateModelAdapter c oldModel newModel
  | .adapterDeleted model => deleteModelAdapter c model

/-- A sequence of events applied to the freshly constructed cache. -/
def applyEvents (events : List CacheEvent) : CacheState :=
  events.foldl applyEvent newCacheState

/-- The binding (pod, model) is present in the pod→models projection. -/
def hasBindingPM (c : CacheState) (podName modelName : String) : Bool :=
  match Smap.get? c.podToModelMapping podName with
  | none => false
  | some models => (Smap.get? models modelName).isSome

/-- The binding (model, pod) is present in the model→pods projection. -/
def hasBindingMP (c : CacheState) (modelName podName : String) : Bool :=
  match Smap.get? c.modelToPodMapping modelName with
  | none => false
  | some pods => (Smap.get? pods podName).isSome

/-- Every entry of the model→pods projection has its mirror entry in the
pod→models projection. -/
def mirrorMPinPM (c : CacheState) : Prop :=
  ∀ modelName podName, hasBindingMP c modelName podName = true →
    hasBindingPM c podName modelName = true

/-- Models `Cache.AddRequestTrace`: computes the two bucket indices, installs the
meta entries when the trace map of the model is missing or empty, and
increments the bucket. -/
def AddRequestTrace (c : CacheState) (modelName : String) (inputTokens outputTokens : Int) :
    CacheState :=
  let tr0 := (Smap.get? c.requestTrace modelName).getD []
  let tr1 := if Smap.isEmpty tr0 then metaInitTrace else tr0
  let key := requestTraceKey inputTokens outputTokens
  let tr2 := Smap.insert tr1 key ((Smap.get? tr1 key).getD 0 + 1)
  { c with requestTrace := Smap.insert c.requestTrace modelName tr2 }

/-- The count stored under `key` in the trace map of `model`. -/
def bucketValue (c : CacheState) (modelName key : String) : Option Int :=
  Smap.get? ((Smap.get? c.requestTrace modelName).getD []) key

/-- One attempted `redisClient.Set` issued by the flusher: the key, the
trace map that was serialized into the value, and whether the external
store reported success (the code logs and ignores a failure). -/
structure TraceWrite where
  key : String
  payload : Smap Int
  ok : Bool
deriving DecidableEq

/-- Models `Cache.writeRequestTraceToStorage`: serializes and publishes each
per-model trace map, then (in a deferred function that runs regardless of
any per-model failure) resets `requestTrace` to a fresh empty map.
`marshalOk` models whether `json.Marshal` succeeds for a given trace map
(a failure skips the write for that model); `redisOk` models whether the
external store accepts a given key (the result is only logged). -/
def writeRequestTraceToStorage (c : CacheState) (roundT : Int)
    (marshalOk : Smap Int → Bool) (redisOk : String → Bool) :
    CacheState × List TraceWrite :=
  let writes := c.requestTrace.filterMap (fun e =>
    if marshalOk e.2 then
      let key := "aibrix:" ++ e.1 ++ "_request_trace_" ++ toString roundT
      some { key := key, payload := e.2, ok := redisOk key }
    else none)
  ({ c with requestTrace := [] }, writes)

/-- One firing of the trace ticker in `NewCache`: when `requestTrace` is
empty the tick is skipped (`continue`); otherwise the timestamp is
aligned down to the flush interval and the flush runs. -/
def traceTick (c : CacheState) (nowUnix : Int) (marshalOk : Smap Int → Bool)
    (redisOk : String → Bool) : CacheState × List TraceWrite :=
  if Smap.isEmpty c.requestTrace then (c, [])
  else writeRequestTraceToStorage c (nowUnix - nowUnix % writeRequestTraceIntervalInSeconds)
    marshalOk redisOk

/-- One step of `Cache.aggregateMetrics` for one metric name: Go reads
`_, exists := c.metrics[metric]` (reading a nil map is fine and yields
`false`) and then executes `c.metrics[metric] = "yes"` when the metric is
absent — an assignment that panics when `metrics` is a nil map. -/
def aggregateMetricsStep (m : Option (Smap String)) (metric : String) :
    Except String (Option (Smap String)) :=
  match m with
  | none => Except.error "assignment to entry in nil map"
  | some mm =>
    if (Smap.get? mm metric).isSome then Except.ok (some mm)
    else Except.ok (some (Smap.insert mm metric "yes"))

/-- Models `Cache.aggregateMetrics`: folds every subscribed metric of every
subscriber through `aggregateMetricsStep`; an `Except.error` models the
run-time panic unwinding the call. -/
def aggregateMetrics (c : CacheState) : Except String CacheState := do
  let mm ← c.subscribers.foldlM
    (fun acc subscriberMetrics => subscriberMetrics.foldlM aggregateMetricsStep acc) c.metricsMap
  pure { c with metricsMap := mm }

/-- Models `Cache.AddSubscriber`: appends the subscriber (modelled by its
`SubscribedMetrics()` list) and runs `aggregateMetrics`. -/
def AddSubscriber (c : CacheState) (subscriberMetrics : List String) :
    Except String CacheState :=
  aggregateMetrics { c with subscribers := c.subscribers ++ [subscriberMetrics] }

/-- Modelled from the spec: the per-model pending-request counter of the
trace cache whose implementation (`AddRequestCount` / `DoneRequestCount` /
`DoneRequestTrace`) is exercised by the test file of the repository but is not
itself among the sources.  Per the spec, `AddRequestCount` atomically
increments the per-model pending counter and `DoneRequestCount` (also as
the first half of `DoneRequestTrace`) atomically decrements it; both are
single atomic read-modify-write operations on a shared counter.  One
hot-path call is one `ReqEvent`. -/
inductive ReqEvent where
  | add
  | done
deriving DecidableEq

/-- The atomic delta a call applies to the pending counter. -/
def eventDelta : ReqEvent → Int
  | .add => 1
  | .done => -1

/-- The program of one worker: `n` iterations of `AddRequestCount` followed by
the matching `DoneRequestTrace`. -/
def workerProgram (n : Nat) : List ReqEvent :=
  (List.replicate n [ReqEvent.add, ReqEvent.done]).flatten

/-- Modelled from the spec: the shared pending counter for one model
together with the remaining program of each concurrent worker. -/
structure TraceSystem where
  pending : Int
  workers : List (List ReqEvent)
deriving DecidableEq

/-- One scheduler step: some worker executes the next call of its
program, atomically applying its delta to the shared counter. -/
inductive TraceStep : TraceSystem → TraceSystem → Prop where
  | exec (pending : Int) (workers : List (List ReqEvent)) (i : Nat) (e : ReqEvent)
      (rest : List ReqEvent) (h : workers[i]? = some (e :: rest)) :
      TraceStep ⟨pending, workers⟩ ⟨pending + eventDelta e, workers.set i rest⟩

/-- Reachability under arbitrary interleavings of the workers. -/
inductive Reaches : TraceSystem → TraceSystem → Prop where
  | refl (s : TraceSystem) : Reaches s s
  | tail {s t u : TraceSystem} : Reaches s t → TraceStep t u → Reaches s u

/-- The initial system: counter 0, `m` workers of `n` iterations each. -/
def initSystem (m n : Nat) : TraceSystem :=
  ⟨0, List.replicate m (workerProgram n)⟩

/-- All calls have returned. -/
def quiescent (s : TraceSystem) : Bool :=
  s.workers.all List.isEmpty

/-- The net pending contribution the remaining program of a worker will still
apply: remaining increments minus remaining decrements. -/
def remainingDelta (w : List ReqEvent) : Int :=
  (w.count ReqEvent.add : Int) - (w.count ReqEvent.done : Int)

/-- Concrete pod `p1` carrying the model-identifier label `llama`. -/
def podP1 : Pod :=
  { name := "p1", ns := "default", labels := [(modelIdentifier, "llama")], podIP := "10.0.0.1" }

/-- The same pod object as `podP1` but with its labels stripped. -/
def podP1Unlabeled : Pod :=
  { name := "p1", ns := "default", labels := [], podIP := "10.0.0.1" }

/-- Concrete pod `p2` carrying the model-identifier label `base2`. -/
def podP2 : Pod :=
  { name := "p2", ns := "default", labels := [(modelIdentifier, "base2")], podIP := "10.0.0.2" }

/-! ### Association-list map lemmas -/

theorem Smap.get?_insert {α : Type} (m : Smap α) (k : String) (v : α) (k' : String) :
    Smap.get? (Smap.insert m k v) k' = if k = k' then some v else Smap.get? m k' := by
  induction m with
  | nil => simp [Smap.insert, Smap.get?]
  | cons e t ih =>
    obtain ⟨k0, v0⟩ := e
    by_cases h0 : k0 = k
    · subst h0
      by_cases h1 : k0 = k'
      · subst h1
        simp [Smap.insert, Smap.get?]
      · simp [Smap.insert, Smap.get?, h1]
    · simp only [Smap.insert, if_neg h0, Smap.get?]
      by_cases h1 : k0 = k'
      · have h2 : ¬ k = k' := fun h => h0 (h1.trans h.symm)
        simp [h1, h2]
      · simp [h1, ih]

theorem Smap.get?_insert_self {α : Type} (m : Smap α) (k : String) (v : α) :
    Smap.get? (Smap.insert m k v) k = some v := by
  simp [Smap.get?_insert]

theorem Smap.get?_insert_ne {α : Type} (m : Smap α) (k : String) (v : α) (k' : String)
    (h : k ≠ k') : Smap.get? (Smap.insert m k v) k' = Smap.get? m k' := by
  simp [Smap.get?_insert, if_neg h]

theorem Smap.get?_erase {α : Type} (m : Smap α) (k k' : String) :
    Smap.get? (Smap.erase m k) k' = if k' = k then none else Smap.get? m k' := by
  induction m with
  | nil => simp [Smap.erase, Smap.get?]
  | cons e t ih =>
    obtain ⟨k0, v0⟩ := e
    by_cases h0 : k0 = k
    · subst h0
      by_cases h1 : k' = k0
      · subst h1
        simp [Smap.erase, ih]
      · have h2 : ¬ k0 = k' := fun h => h1 h.symm
        simp [Smap.erase, Smap.get?, ih, h1, h2]
    · simp only [Smap.erase, if_neg h0, Smap.get?]
      by_cases h1 : k0 = k'
      · have h2 : ¬ k' = k := fun h => h0 (h1.trans h)
        simp [h1, h2]
      · simp [h1, ih]

theorem Smap.insert_insert_self {α : Type} (m : Smap α) (k : String) (v v' : α) :
    Smap.insert (Smap.insert m k v) k v' = Smap.insert m k v' := by
  induction m with
  | nil => simp [Smap.insert]
  | cons e t ih =>
    obtain ⟨k0, v0⟩ := e
    by_cases h0 : k0 = k
    · subst h0
      simp [Smap.insert]
    · simp [Smap.insert, if_neg h0, ih]

theorem Smap.insert_self_of_get? {α : Type} {m : Smap α} {k : String} {v : α}
    (h : Smap.get? m k = some v) : Smap.insert m k v = m := by
  induction m with
  | nil => simp [Smap.get?] at h
  | cons e t ih =>
    obtain ⟨k0, v0⟩ := e
    by_cases h0 : k0 = k
    · subst h0
      simp [Smap.get?] at h
      simp [Smap.insert, h]
    · simp [Smap.get?, if_neg h0] at h
      simp [Smap.insert, if_neg h0, ih h]

theorem Smap.mem_keys_iff_isSome {α : Type} (m : Smap α) (k : String) :
    k ∈ Smap.keys m ↔ (Smap.get? m k).isSome = true := by
  induction m with
  | nil => simp [Smap.keys, Smap.get?]
  | cons e t ih =>
    obtain ⟨k0, v0⟩ := e
    by_cases h0 : k0 = k
    · subst h0
      simp [Smap.keys, Smap.get?]
    · simp [Smap.keys, Smap.get?, if_neg h0, Ne.symm h0] at ih ⊢
      exact ih

theorem Smap.eq_nil_of_isEmpty {α : Type} {m : Smap α} (h : Smap.isEmpty m = true) :
    m = [] := by
  cases m with
  | nil => rfl
  | cons e t => simp [Smap.isEmpty] at h

/-! ### Single-step characterizations of the mapping primitives -/

theorem addPAMM_pods (c : CacheState) (q mn : String) :
    (addPodAndModelMapping c q mn).pods = c.pods := by
  unfold addPodAndModelMapping
  cases Smap.get? c.pods q <;> rfl

theorem addPAMM_podMetrics (c : CacheState) (q mn : String) :
    (addPodAndModelMapping c q mn).podMetrics = c.podMetrics := by
  unfold addPodAndModelMapping
  cases Smap.get? c.pods q <;> rfl

theorem delPAMM_pods (c : CacheState) (q mn : String) :
    (deletePodAndModelMapping c q mn).pods = c.pods := rfl

theorem delPAMM_podMetrics (c : CacheState) (q mn : String) :
    (deletePodAndModelMapping c q mn).podMetrics = c.podMetrics := rfl

theorem hbPM_delete_step (c : CacheState) (q mn p m : String) :
    hasBindingPM (deletePodAndModelMapping c q mn) p m = true ↔
      (hasBindingPM c p m = true ∧ ¬(p = q ∧ m = mn)) := by
  simp only [hasBindingPM, deletePodAndModelMapping]
  cases hq : Smap.get? c.podToModelMapping q with
  | none =>
    by_cases hp : p = q
    · subst hp
      simp [hq]
    · simp [hp]
  | some ms =>
    by_cases hp : p = q
    · subst hp
      simp only [Smap.get?_insert_self]
      by_cases hm : m = mn
      · subst hm
        simp [Smap.get?_erase, hq]
      · simp [Smap.get?_erase, hm, hq]
    · have : q ≠ p := fun h => hp h.symm
      simp [Smap.get?_insert_ne _ _ _ _ this, hp]

theorem hbMP_delete_step (c : CacheState) (q mn m p : String) :
    hasBindingMP (deletePodAndModelMapping c q mn) m p = true ↔
      (hasBindingMP c m p = true ∧ ¬(p = q ∧ m = mn)) := by
  simp only [hasBindingMP, deletePodAndModelMapping]
  cases hq : Smap.get? c.modelToPodMapping mn with
  | none =>
    by_cases hm : m = mn
    · subst hm
      simp [hq]
    · simp [hm]
  | some ps =>
    by_cases hm : m = mn
    · subst hm
      simp only [Smap.get?_insert_self]
      by_cases hp : p = q
      · subst hp
        simp [Smap.get?_erase, hq]
      · simp [Smap.get?_erase, hp, hq]
    · have : mn ≠ m := fun h => hm h.symm
      simp [Smap.get?_insert_ne _ _ _ _ this, hm]

theorem hbPM_add_step (c : CacheState) (q mn p m : String) :
    hasBindingPM (addPodAndModelMapping c q mn) p m = true ↔
      (hasBindingPM c p m = true ∨
        (p = q ∧ m = mn ∧ (Smap.get? c.pods q).isSome = true)) := by
  unfold addPodAndModelMapping
  cases hpod : Smap.get? c.pods q with
  | none => simp [hpod]
  | some pod =>
    simp only [hasBindingPM, Option.isSome_some]
    by_cases hp : p = q
    · subst hp
      simp only [Smap.get?_insert_self]
      by_cases hm : m = mn
      · subst hm
        simp [Smap.get?_insert_self]
      · cases hms : Smap.get? c.podToModelMapping p with
        | none =>
          simp [Smap.get?_insert_ne _ _ _ _ (fun h => hm h.symm), hms, Smap.get?, hm]
          exact fun h => hm h.symm
        | some ms => simp [Smap.get?_insert_ne _ _ _ _ (fun h => hm h.symm), hms, hm]
    · have : q ≠ p := fun h => hp h.symm
      simp [Smap.get?_insert_ne _ _ _ _ this, hp]

theorem hbMP_add_step (c : CacheState) (q mn m p : String) :
    hasBindingMP (addPodAndModelMapping c q mn) m p = true ↔
      (hasBindingMP c m p = true ∨
        (p = q ∧ m = mn ∧ (Smap.get? c.pods q).isSome = true)) := by
  unfold addPodAndModelMapping
  cases hpod : Smap.get? c.pods q with
  | none => simp [hpod]
  | some pod =>
    simp only [hasBindingMP, Option.isSome_some]
    by_cases hm : m = mn
    · subst hm
      simp only [Smap.get?_insert_self]
      by_cases hp : p = q
      · subst hp
        simp [Smap.get?_insert_self]
      · cases hps : Smap.get? c.modelToPodMapping m with
        | none =>
          simp [Smap.get?_insert_ne _ _ _ _ (fun h => hp h.symm), hps, Smap.get?, hp]
          exact fun h => hp h.symm
        | some ps => simp [Smap.get?_insert_ne _ _ _ _ (fun h => hp h.symm), hps, hp]
    · have : mn ≠ m := fun h => hm h.symm
      simp [Smap.get?_insert_ne _ _ _ _ this, hm]

/-! ### Characterizations of the instance-list folds -/

theorem delete_fold_pods (L : List String) (c : CacheState) (mn : String) :
    (L.foldl (fun acc q => deletePodAndModelMapping acc q mn) c).pods = c.pods := by
  induction L generalizing c with
  | nil => rfl
  | cons q t ih =>
    simp only [List.foldl_cons]
    rw [ih]
    exact delPAMM_pods c q mn

theorem add_fold_pods (L : List String) (c : CacheState) (mn : String) :
    (L.foldl (fun acc q => addPodAndModelMapping acc q mn) c).pods = c.pods := by
  induction L generalizing c with
  | nil => rfl
  | cons q t ih =>
    simp only [List.foldl_cons]
    rw [ih, addPAMM_pods]

theorem hbPM_delete_fold (L : List String) (c : CacheState) (mn p m : String) :
    hasBindingPM (L.foldl (fun acc q => deletePodAndModelMapping acc q mn) c) p m = true ↔
      (hasBindingPM c p m = true ∧ ¬(p ∈ L ∧ m = mn)) := by
  induction L generalizing c with
  | nil => simp
  | cons q t ih =>
    simp only [List.foldl_cons]
    rw [ih, hbPM_delete_step]
    simp only [List.mem_cons]
    tauto

theorem hbMP_delete_fold (L : List String) (c : CacheState) (mn m p : String) :
    hasBindingMP (L.foldl (fun acc q => deletePodAndModelMapping acc q mn) c) m p = true ↔
      (hasBindingMP c m p = true ∧ ¬(p ∈ L ∧ m = mn)) := by
  induction L generalizing c with
  | nil => simp
  | cons q t ih =>
    simp only [List.foldl_cons]
    rw [ih, hbMP_delete_step]
    simp only [List.mem_cons]
    tauto

theorem hbPM_add_fold (L : List String) (c : CacheState) (mn p m : String) :
    hasBindingPM (L.foldl (fun acc q => addPodAndModelMapping acc q mn) c) p m = true ↔
      (hasBindingPM c p m = true ∨
        (p ∈ L ∧ m = mn ∧ (Smap.get? c.pods p).isSome = true)) := by
  induction L generalizing c with
  | nil => simp
  | cons q t ih =>
    simp only [List.foldl_cons]
    rw [ih, hbPM_add_step, addPAMM_pods]
    simp only [List.mem_cons]
    constructor
    · rintro ((h | ⟨hpq, hm, hs⟩) | ⟨hpt, hm, hs⟩)
      · exact Or.inl h
      · exact Or.inr ⟨Or.inl hpq, hm, by rw [hpq]; exact hs⟩
      · exact Or.inr ⟨Or.inr hpt, hm, hs⟩
    · rintro (h | ⟨hpq | hpt, hm, hs⟩)
      · exact Or.inl (Or.inl h)
      · exact Or.inl (Or.inr ⟨hpq, hm, by rw [← hpq]; exact hs⟩)
      · exact Or.inr ⟨hpt, hm, hs⟩

theorem hbMP_add_fold (L : List String) (c : CacheState) (mn m p : String) :
    hasBindingMP (L.foldl (fun acc q => addPodAndModelMapping acc q mn) c) m p = true ↔
      (hasBindingMP c m p = true ∨
        (p ∈ L ∧ m = mn ∧ (Smap.get? c.pods p).isSome = true)) := by
  induction L generalizing c with
  | nil => simp
  | cons q t ih =>
    simp only [List.foldl_cons]
    rw [ih, hbMP_add_step, addPAMM_pods]
    simp only [List.mem_cons]
    constructor
    · rintro ((h | ⟨hpq, hm, hs⟩) | ⟨hpt, hm, hs⟩)
      · exact Or.inl h
      · exact Or.inr ⟨Or.inl hpq, hm, by rw [hpq]; exact hs⟩
      · exact Or.inr ⟨Or.inr hpt, hm, hs⟩
    · rintro (h | ⟨hpq | hpt, hm, hs⟩)
      · exact Or.inl (Or.inl h)
      · exact Or.inl (Or.inr ⟨hpq, hm, by rw [← hpq]; exact hs⟩)
      · exact Or.inr ⟨hpt, hm, hs⟩

theorem delete_foldModels_pods (M : List String) (c : CacheState) (q : String) :
    (M.foldl (fun acc mn => deletePodAndModelMapping acc q mn) c).pods = c.pods := by
  induction M generalizing c with
  | nil => rfl
  | cons mn t ih =>
    simp only [List.foldl_cons]
    rw [ih]
    exact delPAMM_pods c q mn

theorem delete_foldModels_podMetrics (M : List String) (c : CacheState) (q : String) :
    (M.foldl (fun acc mn => deletePodAndModelMapping acc q mn) c).podMetrics = c.podMetrics := by
  induction M generalizing c with
  | nil => rfl
  | cons mn t ih =>
    simp only [List.foldl_cons]
    rw [ih]
    exact delPAMM_podMetrics c q mn

theorem hbPM_delete_foldModels (M : List String) (c : CacheState) (q p m : String) :
    hasBindingPM (M.foldl (fun acc mn => deletePodAndModelMapping acc q mn) c) p m = true ↔
      (hasBindingPM c p m = true ∧ ¬(p = q ∧ m ∈ M)) := by
  induction M generalizing c with
  | nil => simp
  | cons mn t ih =>
    simp only [List.foldl_cons]
    rw [ih, hbPM_delete_step]
    simp only [List.mem_cons]
    tauto

theorem hbMP_delete_foldModels (M : List String) (c : CacheState) (q m p : String) :
    hasBindingMP (M.foldl (fun acc mn => deletePodAndModelMapping acc q mn) c) m p = true ↔
      (hasBindingMP c m p = true ∧ ¬(p = q ∧ m ∈ M)) := by
  induction M generalizing c with
  | nil => simp
  | cons mn t ih =>
    simp only [List.foldl_cons]
    rw [ih, hbMP_delete_step]
    simp only [List.mem_cons]
    tauto

/-! ### State congruences and the deletePod characterization -/

theorem hbPM_of_eq (c c' : CacheState) (h : c'.podToModelMapping = c.podToModelMapping)
    (p m : String) : hasBindingPM c' p m = hasBindingPM c p m := by
  unfold hasBindingPM
  rw [h]

theorem hbMP_of_eq (c c' : CacheState) (h : c'.modelToPodMapping = c.modelToPodMapping)
    (m p : String) : hasBindingMP c' m p = hasBindingMP c m p := by
  unfold hasBindingMP
  rw [h]

theorem hbPM_erase_of_eq (c c' : CacheState) (q : String)
    (h : c'.podToModelMapping = Smap.erase c.podToModelMapping q) (p m : String) :
    hasBindingPM c' p m = true ↔ (p ≠ q ∧ hasBindingPM c p m = true) := by
  unfold hasBindingPM
  rw [h, Smap.get?_erase]
  by_cases hp : p = q
  · simp [hp]
  · simp only [if_neg hp]
    exact ⟨fun h2 => ⟨hp, h2⟩, fun h2 => h2.2⟩

theorem hbMP_erase_of_eq (c c' : CacheState) (mn : String)
    (h : c'.modelToPodMapping = Smap.erase c.modelToPodMapping mn) (m p : String) :
    hasBindingMP c' m p = true ↔ (m ≠ mn ∧ hasBindingMP c m p = true) := by
  unfold hasBindingMP
  rw [h, Smap.get?_erase]
  by_cases hm : m = mn
  · simp [hm]
  · simp only [if_neg hm]
    exact ⟨fun h2 => ⟨hm, h2⟩, fun h2 => h2.2⟩

theorem deletePod_eq_none (c : CacheState) (pod : Pod) (mn : String)
    (hl : Smap.get? pod.labels modelIdentifier = some mn)
    (hms : Smap.get? c.podToModelMapping pod.name = none) :
    deletePod c pod =
      { c with
        podToModelMapping := Smap.erase c.podToModelMapping pod.name
        pods := Smap.erase c.pods pod.name
        podMetrics := Smap.erase c.podMetrics pod.name } := by
  unfold deletePod
  rw [hl, hms]

theorem deletePod_eq_some (c : CacheState) (pod : Pod) (mn : String) (ms : Smap Unit)
    (hl : Smap.get? pod.labels modelIdentifier = some mn)
    (hms : Smap.get? c.podToModelMapping pod.name = some ms) :
    deletePod c pod =
      { (Smap.keys ms).foldl (fun acc m2 => deletePodAndModelMapping acc pod.name m2) c with
        podToModelMapping :=
          Smap.erase
            ((Smap.keys ms).foldl (fun acc m2 => deletePodAndModelMapping acc pod.name m2)
              c).podToModelMapping pod.name
        pods :=
          Smap.erase
            ((Smap.keys ms).foldl (fun acc m2 => deletePodAndModelMapping acc pod.name m2)
              c).pods pod.name
        podMetrics :=
          Smap.erase
            ((Smap.keys ms).foldl (fun acc m2 => deletePodAndModelMapping acc pod.name m2)
              c).podMetrics pod.name } := by
  unfold deletePod
  rw [hl, hms]

theorem hbPM_deletePod (c : CacheState) (pod : Pod) (mn : String)
    (hl : Smap.get? pod.labels modelIdentifier = some mn) (p m : String) :
    hasBindingPM (deletePod c pod) p m = true ↔
      (p ≠ pod.name ∧ hasBindingPM c p m = true) := by
  cases hms : Smap.get? c.podToModelMapping pod.name with
  | none =>
    rw [deletePod_eq_none c pod mn hl hms]
    exact hbPM_erase_of_eq c _ pod.name rfl p m
  | some ms =>
    rw [deletePod_eq_some c pod mn ms hl hms]
    refine Iff.trans (hbPM_erase_of_eq
      ((Smap.keys ms).foldl (fun acc m2 => deletePodAndModelMapping acc pod.name m2) c) _
      pod.name rfl p m) ?_
    rw [hbPM_delete_foldModels (Smap.keys ms) c pod.name p m]
    tauto

theorem hbMP_deletePod (c : CacheState) (pod : Pod) (mn : String)
    (hl : Smap.get? pod.labels modelIdentifier = some mn) (m p : String) :
    hasBindingMP (deletePod c pod) m p = true ↔
      (hasBindingMP c m p = true ∧
        ¬(p = pod.name ∧ m ∈ Smap.keys ((Smap.get? c.podToModelMapping pod.name).getD []))) := by
  cases hms : Smap.get? c.podToModelMapping pod.name with
  | none =>
    rw [deletePod_eq_none c pod mn hl hms]
    show hasBindingMP c m p = true ↔ _
    simp [Smap.keys]
  | some ms =>
    rw [deletePod_eq_some c pod mn ms hl hms]
    show hasBindingMP
      ((Smap.keys ms).foldl (fun acc m2 => deletePodAndModelMapping acc pod.name m2) c) m p
        = true ↔ _
    rw [hbMP_delete_foldModels (Smap.keys ms) c pod.name m p]
    simp

theorem deletePod_pods_get? (c : CacheState) (pod : Pod) (mn : String)
    (hl : Smap.get? pod.labels modelIdentifier = some mn) :
    Smap.get? (deletePod c pod).pods pod.name = none := by
  cases hms : Smap.get? c.podToModelMapping pod.name with
  | none =>
    rw [deletePod_eq_none c pod mn hl hms]
    simp [Smap.get?_erase]
  | some ms =>
    rw [deletePod_eq_some c pod mn ms hl hms]
    simp [Smap.get?_erase]

theorem deletePod_podMetrics_get? (c : CacheState) (pod : Pod) (mn : String)
    (hl : Smap.get? pod.labels modelIdentifier = some mn) :
    Smap.get? (deletePod c pod).podMetrics pod.name = none := by
  cases hms : Smap.get? c.podToModelMapping pod.name with
  | none =>
    rw [deletePod_eq_none c pod mn hl hms]
    simp [Smap.get?_erase]
  | some ms =>
    rw [deletePod_eq_some c pod mn ms hl hms]
    simp [Smap.get?_erase]

theorem deletePod_PM_get? (c : CacheState) (pod : Pod) (mn : String)
    (hl : Smap.get? pod.labels modelIdentifier = some mn) :
    Smap.get? (deletePod c pod).podToModelMapping pod.name = none := by
  cases hms : Smap.get? c.podToModelMapping pod.name with
  | none =>
    rw [deletePod_eq_none c pod mn hl hms]
    simp [Smap.get?_erase]
  | some ms =>
    rw [deletePod_eq_some c pod mn ms hl hms]
    simp [Smap.get?_erase]

/-! ### The model→pods ⊆ pod→models invariant -/

theorem mirror_addPAMM (c : CacheState) (q mn : String) (h : mirrorMPinPM c) :
    mirrorMPinPM (addPodAndModelMapping c q mn) := by
  intro m p hmp
  rw [hbMP_add_step] at hmp
  rw [hbPM_add_step]
  rcases hmp with h1 | h2
  · exact Or.inl (h m p h1)
  · exact Or.inr h2

theorem mirror_delPAMM (c : CacheState) (q mn : String) (h : mirrorMPinPM c) :
    mirrorMPinPM (deletePodAndModelMapping c q mn) := by
  intro m p hmp
  rw [hbMP_delete_step] at hmp
  rw [hbPM_delete_step]
  exact ⟨h m p hmp.1, hmp.2⟩

theorem mirror_add_fold (L : List String) (c : CacheState) (mn : String) (h : mirrorMPinPM c) :
    mirrorMPinPM (L.foldl (fun acc q => addPodAndModelMapping acc q mn) c) := by
  induction L generalizing c with
  | nil => exact h
  | cons q t ih =>
    simp only [List.foldl_cons]
    exact ih _ (mirror_addPAMM c q mn h)

theorem mirror_delete_fold (L : List String) (c : CacheState) (mn : String)
    (h : mirrorMPinPM c) :
    mirrorMPinPM (L.foldl (fun acc q => deletePodAndModelMapping acc q mn) c) := by
  induction L generalizing c with
  | nil => exact h
  | cons q t ih =>
    simp only [List.foldl_cons]
    exact ih _ (mirror_delPAMM c q mn h)

theorem mirror_addPod (c : CacheState) (pod : Pod) (h : mirrorMPinPM c) :
    mirrorMPinPM (addPod c pod) := by
  unfold addPod
  cases Smap.get? pod.labels modelIdentifier with
  | none => exact h
  | some mn => exact mirror_addPAMM _ _ _ h

theorem mirror_updatePod (c : CacheState) (oldPod newPod : Pod) (h : mirrorMPinPM c) :
    mirrorMPinPM (updatePod c oldPod newPod) := by
  unfold updatePod
  cases Smap.get? oldPod.labels modelIdentifier with
  | none =>
    cases Smap.get? newPod.labels modelIdentifier with
    | none => exact h
    | some nm => exact mirror_addPAMM _ _ _ h
  | some om =>
    cases Smap.get? newPod.labels modelIdentifier with
    | none => exact mirror_delPAMM _ _ _ h
    | some nm => exact mirror_addPAMM _ _ _ (mirror_delPAMM _ _ _ h)

theorem mirror_deletePod (c : CacheState) (pod : Pod) (h : mirrorMPinPM c) :
    mirrorMPinPM (deletePod c pod) := by
  cases hl : Smap.get? pod.labels modelIdentifier with
  | none =>
    unfold deletePod
    rw [hl]
    exact h
  | some mn =>
    intro m p hmp
    rw [hbMP_deletePod c pod mn hl] at hmp
    obtain ⟨hc, hnot⟩ := hmp
    have hpm := h m p hc
    rw [hbPM_deletePod c pod mn hl]
    refine ⟨?_, hpm⟩
    intro hpeq
    apply hnot
    refine ⟨hpeq, ?_⟩
    rw [Smap.mem_keys_iff_isSome]
    unfold hasBindingPM at hpm
    subst hpeq
    cases hms : Smap.get? c.podToModelMapping pod.name with
    | none => rw [hms] at hpm; simp at hpm
    | some ms => rw [hms] at hpm; simp [hms]; exact hpm

theorem mirror_addModelAdapter (c : CacheState) (model : ModelAdapter) (h : mirrorMPinPM c) :
    mirrorMPinPM (addModelAdapter c model) :=
  mirror_add_fold model.instances c model.name h

theorem mirror_updateModelAdapter (c : CacheState) (oldModel newModel : ModelAdapter)
    (h : mirrorMPinPM c) : mirrorMPinPM (updateModelAdapter c oldModel newModel) :=
  mirror_add_fold newModel.instances _ newModel.name
    (mirror_delete_fold oldModel.instances c oldModel.name h)

theorem mirror_deleteModelAdapter (c : CacheState) (model : ModelAdapter)
    (h : mirrorMPinPM c) : mirrorMPinPM (deleteModelAdapter c model) := by
  intro m p hmp
  have h1 : mirrorMPinPM
      (model.instances.foldl (fun acc q => deletePodAndModelMapping acc q model.name) c) :=
    mirror_delete_fold model.instances c model.name h
  have h2 := (hbMP_erase_of_eq
    (model.instances.foldl (fun acc q => deletePodAndModelMapping acc q model.name) c)
    (deleteModelAdapter c model) model.name rfl m p).mp hmp
  exact h1 m p h2.2

theorem mirror_applyEvent (c : CacheState) (e : CacheEvent) (h : mirrorMPinPM c) :
    mirrorMPinPM (applyEvent c e) := by
  cases e with
  | podAdded pod => exact mirror_addPod c pod h
  | podUpdated oldPod newPod => exact mirror_updatePod c oldPod newPod h
  | podDeleted pod => exact mirror_deletePod c pod h
  | adapterAdded model => exact mirror_addModelAdapter c model h
  | adapterUpdated oldModel newModel => exact mirror_updateModelAdapter c oldModel newModel h
  | adapterDeleted model => exact mirror_deleteModelAdapter c model h

theorem mirror_foldEvents (events : List CacheEvent) (c : CacheState) (h : mirrorMPinPM c) :
    mirrorMPinPM (events.foldl applyEvent c) := by
  induction events generalizing c with
  | nil => exact h
  | cons e t ih =>
    simp only [List.foldl_cons]
    exact ih _ (mirror_applyEvent c e h)

theorem mirrorMPinPM_of_events (events : List CacheEvent) :
    mirrorMPinPM (applyEvents events) := by
  apply mirror_foldEvents
  intro m p hmp
  simp [hasBindingMP, newCacheState, Smap.get?] at hmp

/-! ### Claims C1, C5, C6 -/

/-- Claim C1 is false as stated: from the empty cache, add pods `p1`, `p2`,
add adapter `lora` with instances `[p1, p2]`, then delete `lora` with an
instance list naming only `p1`.  `deleteModelAdapter` erases the whole
`ModelToPodMapping["lora"]` entry but removes only the listed instances
from `PodToModelMapping`, so (p2, lora) survives in `PodToModelMapping`
with no matching entry in `ModelToPodMapping`. -/
theorem mirror_iff_counterexample :
    hasBindingPM (applyEvents [CacheEvent.podAdded podP1, CacheEvent.podAdded podP2,
      CacheEvent.adapterAdded ⟨"lora", "default", ["p1", "p2"]⟩,
      CacheEvent.adapterDeleted ⟨"lora", "default", ["p1"]⟩]) "p2" "lora" = true ∧
    hasBindingMP (applyEvents [CacheEvent.podAdded podP1, CacheEvent.podAdded podP2,
      CacheEvent.adapterAdded ⟨"lora", "default", ["p1", "p2"]⟩,
      CacheEvent.adapterDeleted ⟨"lora", "default", ["p1"]⟩]) "lora" "p2" = false := by
  decide

/-- Claim C1 (amended): after any sequence of pod and model-adapter
add/update/delete events applied to the initially empty cache, every
(model, pod) entry of `ModelToPodMapping` has the matching (pod, model)
entry in `PodToModelMapping`.  The converse inclusion — and with it the
full mirror — can fail after a `deleteModelAdapter` event whose instance
list omits a pod still bound to that model (see the counterexample). -/
theorem mirror_model_to_pod_invariant (events : List CacheEvent) :
    mirrorMPinPM (applyEvents events) :=
  mirrorMPinPM_of_events events

theorem mirror_model_to_pod_invariant_witness :
    hasBindingMP (applyEvents [CacheEvent.podAdded podP1]) "llama" "p1" = true ∧
    hasBindingPM (applyEvents [CacheEvent.podAdded podP1]) "p1" "llama" = true :=
  ⟨by decide, mirror_model_to_pod_invariant [CacheEvent.podAdded podP1] "llama" "p1" (by decide)⟩

/-- Claim C5 is false as stated: `updateModelAdapter` from old instances
`[]` to new instances `[p1]` on the empty cache adds nothing, because
`addPodAndModelMapping` skips pods that are not in the registry — the
binding (p1, a), listed only in the new object, is not added. -/
theorem updateModelAdapter_unregistered_counterexample :
    hasBindingPM
      (updateModelAdapter newCacheState ⟨"a", "default", []⟩ ⟨"a", "default", ["p1"]⟩)
      "p1" "a" = false := by
  decide

/-- Claim C5 (amended): after `updateModelAdapter(old, new)` the binding
(p, m) is present in the pod→models projection exactly when it was
present before and is not (p ∈ old.instances, m = old.name), or
p ∈ new.instances, m = new.name and p is present in the pod registry.
In particular bindings only in `old` are removed, bindings only in `new`
are added only for registered pods, and bindings in both survive only if
their pod is registered (they are removed and conditionally re-added). -/
theorem updateModelAdapter_binding_characterization (c : CacheState)
    (oldModel newModel : ModelAdapter) (p m : String) :
    hasBindingPM (updateModelAdapter c oldModel newModel) p m = true ↔
      ((hasBindingPM c p m = true ∧ ¬(p ∈ oldModel.instances ∧ m = oldModel.name)) ∨
        (p ∈ newModel.instances ∧ m = newModel.name ∧ (Smap.get? c.pods p).isSome = true)) := by
  show hasBindingPM
    (newModel.instances.foldl (fun acc q => addPodAndModelMapping acc q newModel.name)
      (oldModel.instances.foldl (fun acc q => deletePodAndModelMapping acc q oldModel.name) c))
    p m = true ↔ _
  rw [hbPM_add_fold, hbPM_delete_fold, delete_fold_pods]

theorem updateModelAdapter_binding_characterization_witness :
    hasBindingPM
      (updateModelAdapter (applyEvents [CacheEvent.podAdded podP1])
        ⟨"a", "default", []⟩ ⟨"a", "default", ["p1"]⟩) "p1" "a" = true :=
  (updateModelAdapter_binding_characterization (applyEvents [CacheEvent.podAdded podP1])
    ⟨"a", "default", []⟩ ⟨"a", "default", ["p1"]⟩ "p1" "a").mpr (by decide)

/-- Claim C6 is false as stated: `deletePod` returns without touching the
cache when the delivered pod object lacks the model-identifier label, so
a registered pod named `p1` survives a delete event whose object carries
no labels. -/
theorem deletePod_unlabeled_counterexample :
    Smap.get? (deletePod (addPod newCacheState podP1) podP1Unlabeled).pods "p1"
      = some podP1 := by
  decide

/-- Claim C6 (amended): when the delivered pod object carries the
model-identifier label — and in every state satisfying the model→pods ⊆
pod→models inclusion, which holds in all states reachable from the empty
cache — `deletePod` removes the pod from the registry, deletes its whole
metrics sub-map, deletes its pod→models entry, and removes every binding
for the pod from both mapping directions. -/
theorem deletePod_removes_pod (c : CacheState) (pod : Pod) (mn : String)
    (hl : Smap.get? pod.labels modelIdentifier = some mn) (hmir : mirrorMPinPM c) :
    Smap.get? (deletePod c pod).pods pod.name = none ∧
    Smap.get? (deletePod c pod).podMetrics pod.name = none ∧
    Smap.get? (deletePod c pod).podToModelMapping pod.name = none ∧
    (∀ m, hasBindingPM (deletePod c pod) pod.name m = false) ∧
    (∀ m, hasBindingMP (deletePod c pod) m pod.name = false) := by
  refine ⟨deletePod_pods_get? c pod mn hl, deletePod_podMetrics_get? c pod mn hl,
    deletePod_PM_get? c pod mn hl, ?_, ?_⟩
  · intro m
    cases hval : hasBindingPM (deletePod c pod) pod.name m with
    | false => rfl
    | true =>
      have hch := (hbPM_deletePod c pod mn hl pod.name m).mp hval
      exact absurd rfl hch.1
  · intro m
    cases hval : hasBindingMP (deletePod c pod) m pod.name with
    | false => rfl
    | true =>
      obtain ⟨hc, hnot⟩ := (hbMP_deletePod c pod mn hl m pod.name).mp hval
      exfalso
      apply hnot
      refine ⟨rfl, ?_⟩
      have hpm := hmir m pod.name hc
      rw [Smap.mem_keys_iff_isSome]
      unfold hasBindingPM at hpm
      cases hms : Smap.get? c.podToModelMapping pod.name with
      | none => rw [hms] at hpm; simp at hpm
      | some ms =>
        rw [hms] at hpm
        simp [hms]
        exact hpm

theorem deletePod_removes_pod_witness :
    Smap.get? podP1.labels modelIdentifier = some "llama" ∧
    Smap.get? (deletePod (applyEvents [CacheEvent.podAdded podP1]) podP1).pods "p1" = none ∧
    Smap.get?
      (deletePod (applyEvents [CacheEvent.podAdded podP1]) podP1).podMetrics "p1" = none ∧
    hasBindingPM (deletePod (applyEvents [CacheEvent.podAdded podP1]) podP1) "p1" "llama"
      = false ∧
    hasBindingMP (deletePod (applyEvents [CacheEvent.podAdded podP1]) podP1) "llama" "p1"
      = false := by
  have h := deletePod_removes_pod (applyEvents [CacheEvent.podAdded podP1]) podP1 "llama"
    (by decide) (mirrorMPinPM_of_events [CacheEvent.podAdded podP1])
  exact ⟨by decide, h.1, h.2.1, h.2.2.2.1 "llama", h.2.2.2.2 "llama"⟩

/-! ### Claim C8: addPod skip-on-missing-label and idempotence -/

theorem addPAMM_once_eq (c : CacheState) (q mn : String) (pod : Pod)
    (h : Smap.get? c.pods q = some pod) :
    addPodAndModelMapping c q mn =
      { c with
        podToModelMapping := Smap.insert c.podToModelMapping q
          (Smap.insert ((Smap.get? c.podToModelMapping q).getD []) mn ())
        modelToPodMapping := Smap.insert c.modelToPodMapping mn
          (Smap.insert ((Smap.get? c.modelToPodMapping mn).getD []) q pod) } := by
  unfold addPodAndModelMapping
  rw [h]

theorem addPAMM_idem (c : CacheState) (q mn : String) (pod : Pod)
    (h : Smap.get? c.pods q = some pod) :
    addPodAndModelMapping (addPodAndModelMapping c q mn) q mn
      = addPodAndModelMapping c q mn := by
  rw [addPAMM_once_eq c q mn pod h]
  rw [addPAMM_once_eq
    { c with
      podToModelMapping := Smap.insert c.podToModelMapping q
        (Smap.insert ((Smap.get? c.podToModelMapping q).getD []) mn ())
      modelToPodMapping := Smap.insert c.modelToPodMapping mn
        (Smap.insert ((Smap.get? c.modelToPodMapping mn).getD []) q pod) }
    q mn pod h]
  simp only [Smap.get?_insert_self, Option.getD_some, Smap.insert_insert_self]

theorem addPod_once_eq (c : CacheState) (p : Pod) (mn : String)
    (hl : Smap.get? p.labels modelIdentifier = some mn) :
    addPod c p
      = addPodAndModelMapping { c with pods := Smap.insert c.pods p.name p } p.name mn := by
  unfold addPod
  rw [hl]

theorem addPod_idem_labeled (c : CacheState) (p : Pod) (mn : String)
    (hl : Smap.get? p.labels modelIdentifier = some mn) :
    addPod (addPod c p) p = addPod c p := by
  rw [addPod_once_eq c p mn hl]
  rw [addPod_once_eq
    (addPodAndModelMapping { c with pods := Smap.insert c.pods p.name p } p.name mn) p mn hl]
  have h1 : Smap.insert
      (addPodAndModelMapping { c with pods := Smap.insert c.pods p.name p } p.name mn).pods
      p.name p
      = (addPodAndModelMapping { c with pods := Smap.insert c.pods p.name p } p.name mn).pods := by
    rw [addPAMM_pods]
    exact Smap.insert_insert_self c.pods p.name p p
  rw [h1]
  exact addPAMM_idem { c with pods := Smap.insert c.pods p.name p } p.name mn p
    (Smap.get?_insert_self c.pods p.name p)

/-- Claim C8: `addPod` leaves the whole cache state unchanged when the pod
object lacks the model-identifier label, and applying `addPod` twice with
the same pod object yields exactly the state of applying it once. -/
theorem addPod_unlabeled_and_idempotent (c : CacheState) (p : Pod) :
    (Smap.get? p.labels modelIdentifier = none → addPod c p = c) ∧
    addPod (addPod c p) p = addPod c p := by
  constructor
  · intro h
    unfold addPod
    rw [h]
  · cases hl : Smap.get? p.labels modelIdentifier with
    | none =>
      have hnoop : addPod c p = c := by
        unfold addPod
        rw [hl]
      rw [hnoop]
      exact hnoop
    | some mn => exact addPod_idem_labeled c p mn hl

theorem addPod_unlabeled_and_idempotent_witness :
    addPod newCacheState podP1Unlabeled = newCacheState ∧
    addPod (addPod newCacheState podP1) podP1 = addPod newCacheState podP1 :=
  ⟨(addPod_unlabeled_and_idempotent newCacheState podP1Unlabeled).1 rfl,
    (addPod_unlabeled_and_idempotent newCacheState podP1).2⟩

/-! ### Claims C7 and C4: AddRequestTrace bucketing -/

theorem addRequestTrace_requestTrace (c : CacheState) (mn : String) (tin tout : Int) :
    (AddRequestTrace c mn tin tout).requestTrace =
      Smap.insert c.requestTrace mn
        (Smap.insert
          (if Smap.isEmpty ((Smap.get? c.requestTrace mn).getD []) then metaInitTrace
            else (Smap.get? c.requestTrace mn).getD [])
          (requestTraceKey tin tout)
          ((Smap.get?
            (if Smap.isEmpty ((Smap.get? c.requestTrace mn).getD []) then metaInitTrace
              else (Smap.get? c.requestTrace mn).getD [])
            (requestTraceKey tin tout)).getD 0 + 1)) := rfl

theorem get?_metaInitTrace_ne (k : String)
    (h1 : k ≠ keyWriteRequestTraceIntervalInSeconds)
    (h2 : k ≠ keyPrecisionRequestTrace) (h3 : k ≠ keyVersionRequestTrace) :
    Smap.get? metaInitTrace k = none := by
  unfold metaInitTrace
  rw [Smap.get?_insert_ne _ _ _ _ (fun h => h3 h.symm),
    Smap.get?_insert_ne _ _ _ _ (fun h => h2 h.symm),
    Smap.get?_insert_ne _ _ _ _ (fun h => h1 h.symm)]
  rfl

/-- Claim C7: `AddRequestTrace(model, 1, 1)` records exactly one increment
at bucket key `"0:0"` (both indices are `round(log2(1)/0.1) = 0`): the
`"0:0"` count of the trace map of that model grows by one, every other
non-meta key of that trace map is unchanged, and the trace map of every
other model is untouched. -/
theorem addRequestTrace_one_one (c : CacheState) (mn : String) :
    bucketValue (AddRequestTrace c mn 1 1) mn "0:0"
      = some ((bucketValue c mn "0:0").getD 0 + 1) ∧
    (∀ k : String, k ≠ "0:0" → k ≠ keyWriteRequestTraceIntervalInSeconds →
      k ≠ keyPrecisionRequestTrace → k ≠ keyVersionRequestTrace →
      bucketValue (AddRequestTrace c mn 1 1) mn k = bucketValue c mn k) ∧
    (∀ mo : String, mo ≠ mn →
      Smap.get? (AddRequestTrace c mn 1 1).requestTrace mo
        = Smap.get? c.requestTrace mo) := by
  have hkey : requestTraceKey 1 1 = "0:0" := by decide
  refine ⟨?_, ?_, ?_⟩
  · unfold bucketValue
    rw [addRequestTrace_requestTrace c mn 1 1, hkey, Smap.get?_insert_self, Option.getD_some,
      Smap.get?_insert_self]
    cases htr : Smap.isEmpty ((Smap.get? c.requestTrace mn).getD []) with
    | false => simp [htr]
    | true =>
      have hnil : (Smap.get? c.requestTrace mn).getD [] = ([] : Smap Int) :=
        Smap.eq_nil_of_isEmpty htr
      rw [hnil, if_pos rfl, get?_metaInitTrace_ne "0:0" (by decide) (by decide) (by decide)]
      rfl
  · intro k hk h1 h2 h3
    unfold bucketValue
    rw [addRequestTrace_requestTrace c mn 1 1, hkey, Smap.get?_insert_self, Option.getD_some,
      Smap.get?_insert_ne _ _ _ _ (fun h => hk h.symm)]
    cases htr : Smap.isEmpty ((Smap.get? c.requestTrace mn).getD []) with
    | false => simp [htr]
    | true =>
      rw [Smap.eq_nil_of_isEmpty htr]
      simp only [Smap.isEmpty, if_pos]
      exact get?_metaInitTrace_ne k h1 h2 h3
  · intro mo hmo
    rw [addRequestTrace_requestTrace c mn 1 1,
      Smap.get?_insert_ne _ _ _ _ (fun h => hmo h.symm)]

theorem addRequestTrace_one_one_witness :
    bucketValue (AddRequestTrace newCacheState "llama-7b" 1 1) "llama-7b" "0:0" = some 1 ∧
    bucketValue (AddRequestTrace newCacheState "llama-7b" 1 1) "llama-7b" "5:5" = none ∧
    Smap.get? (AddRequestTrace newCacheState "llama-7b" 1 1).requestTrace "other" = none := by
  have h := addRequestTrace_one_one newCacheState "llama-7b"
  refine ⟨?_, ?_, ?_⟩
  · rw [h.1]
    decide
  · rw [h.2.1 "5:5" (by decide) (by decide) (by decide) (by decide)]
    decide
  · rw [h.2.2 "other" (by decide)]
    decide

/-- Claim C4 is false as stated: `AddRequestTrace` with zero-token inputs
does not coerce them to 1 — `math.Log2(0) = -Inf` flows through the
division and rounding, and the `int64` conversion yields
`math.MinInt64`, so the call records the bucket
`"-9223372036854775808:-9223372036854775808"` and not `"0:0"`.
Negative tokens are likewise not rejected: a bucket is recorded for
every call. -/
theorem addRequestTrace_zero_tokens_counterexample :
    bucketValue (AddRequestTrace newCacheState "m" 0 0) "m" "0:0" = none ∧
    bucketValue (AddRequestTrace newCacheState "m" 0 0) "m"
      "-9223372036854775808:-9223372036854775808" = some 1 := by
  decide

/-- Claim C4 (amended): the bucket indices are computed directly on the
given token counts as `round(log2(tokens)/0.1)` with no `max(tokens, 1)`
coercion and no rejection — the call records exactly one increment of the
bucket keyed by the two indices for every input.  For `tokens ≥ 1` the
index `i` satisfies `2^(2i) ≤ 2·tokens^20 < 2^(2i+2)`, the integer form
of the rounding bracket `i − 1/2 ≤ 10·log2(tokens) < i + 1/2`; for
`tokens ≤ 0` the index is the `int64` conversion of `-Inf`/`NaN`, which
is `math.MinInt64`. -/
theorem addRequestTrace_index_behavior (c : CacheState) (mn : String) (tin tout : Int)
    (h1 : requestTraceKey tin tout ≠ keyWriteRequestTraceIntervalInSeconds)
    (h2 : requestTraceKey tin tout ≠ keyPrecisionRequestTrace)
    (h3 : requestTraceKey tin tout ≠ keyVersionRequestTrace) :
    bucketValue (AddRequestTrace c mn tin tout) mn (requestTraceKey tin tout)
      = some ((bucketValue c mn (requestTraceKey tin tout)).getD 0 + 1) ∧
    (1 ≤ tin →
      2 ^ (2 * (requestTraceIndex tin).toNat) ≤ 2 * tin.toNat ^ 20 ∧
      2 * tin.toNat ^ 20 < 2 ^ (2 * (requestTraceIndex tin).toNat + 2)) ∧
    (tin ≤ 0 → requestTraceIndex tin = int64MinValue) := by
  refine ⟨?_, ?_, ?_⟩
  · unfold bucketValue
    rw [addRequestTrace_requestTrace c mn tin tout, Smap.get?_insert_self, Option.getD_some,
      Smap.get?_insert_self]
    cases htr : Smap.isEmpty ((Smap.get? c.requestTrace mn).getD []) with
    | false => simp [htr]
    | true =>
      have hnil : (Smap.get? c.requestTrace mn).getD [] = ([] : Smap Int) :=
        Smap.eq_nil_of_isEmpty htr
      rw [hnil, if_pos rfl, get?_metaInitTrace_ne _ h1 h2 h3]
      rfl
  · intro htin
    have hne : ¬ tin ≤ 0 := by omega
    have ht1 : 1 ≤ tin.toNat := by omega
    unfold requestTraceIndex
    rw [if_neg hne]
    rw [Int.toNat_natCast]
    constructor
    · have hp20 : 1 ≤ tin.toNat ^ 20 := Nat.one_le_pow 20 tin.toNat (by omega)
      have h0 : (fun i => 2 ^ (2 * i) ≤ 2 * tin.toNat ^ 20) 0 := by
        show 2 ^ (2 * 0) ≤ 2 * tin.toNat ^ 20
        simp only [Nat.mul_zero, Nat.pow_zero]
        omega
      exact @Nat.findGreatest_spec 0 (fun i => 2 ^ (2 * i) ≤ 2 * tin.toNat ^ 20) _
        (10 * tin.toNat) (Nat.zero_le _) h0
    · by_cases hib : Nat.findGreatest (fun i => 2 ^ (2 * i) ≤ 2 * tin.toNat ^ 20)
        (10 * tin.toNat) < 10 * tin.toNat
      · have hnp := Nat.findGreatest_is_greatest (Nat.lt_succ_self _)
          (Nat.succ_le_of_lt hib)
        have : ¬ 2 ^ (2 * (Nat.findGreatest (fun i => 2 ^ (2 * i) ≤ 2 * tin.toNat ^ 20)
            (10 * tin.toNat) + 1)) ≤ 2 * tin.toNat ^ 20 := hnp
        have heq : 2 * (Nat.findGreatest (fun i => 2 ^ (2 * i) ≤ 2 * tin.toNat ^ 20)
            (10 * tin.toNat) + 1)
            = 2 * Nat.findGreatest (fun i => 2 ^ (2 * i) ≤ 2 * tin.toNat ^ 20)
              (10 * tin.toNat) + 2 := by omega
        rw [heq] at this
        omega
      · have hi : Nat.findGreatest (fun i => 2 ^ (2 * i) ≤ 2 * tin.toNat ^ 20)
            (10 * tin.toNat) = 10 * tin.toNat :=
          le_antisymm (Nat.findGreatest_le _) (le_of_not_lt hib)
        rw [hi]
        have htp : tin.toNat ^ 20 < 2 ^ (20 * tin.toNat) := by
          calc tin.toNat ^ 20 < (2 ^ tin.toNat) ^ 20 :=
                Nat.pow_lt_pow_left (Nat.lt_two_pow tin.toNat) (by norm_num)
            _ = 2 ^ (tin.toNat * 20) := (pow_mul 2 tin.toNat 20).symm
            _ = 2 ^ (20 * tin.toNat) := by rw [Nat.mul_comm]
        have hstep : 2 * tin.toNat ^ 20 < 2 ^ (20 * tin.toNat + 1) := by
          have hpo : (2 : Nat) ^ (20 * tin.toNat + 1) = 2 ^ (20 * tin.toNat) * 2 :=
            Nat.pow_succ 2 (20 * tin.toNat)
          omega
        have hmono : 2 ^ (20 * tin.toNat + 1) ≤ 2 ^ (2 * (10 * tin.toNat) + 2) := by
          apply Nat.pow_le_pow_right (by norm_num)
          omega
        omega
  · intro h
    unfold requestTraceIndex
    rw [if_pos h]

theorem addRequestTrace_index_behavior_witness :
    requestTraceKey 3 1 ≠ keyWriteRequestTraceIntervalInSeconds ∧
    requestTraceKey 3 1 ≠ keyPrecisionRequestTrace ∧
    requestTraceKey 3 1 ≠ keyVersionRequestTrace ∧
    bucketValue (AddRequestTrace newCacheState "m" 3 1) "m" (requestTraceKey 3 1) = some 1 ∧
    (2 ^ (2 * (requestTraceIndex 3).toNat) ≤ 2 * (3 : Int).toNat ^ 20 ∧
      2 * (3 : Int).toNat ^ 20 < 2 ^ (2 * (requestTraceIndex 3).toNat + 2)) ∧
    requestTraceIndex 0 = int64MinValue := by
  have h := addRequestTrace_index_behavior newCacheState "m" 3 1
    (by decide) (by decide) (by decide)
  have h0 := addRequestTrace_index_behavior newCacheState "m" 0 0
    (by decide) (by decide) (by decide)
  refine ⟨by decide, by decide, by decide, ?_, h.2.1 (by norm_num), h0.2.2 le_rfl⟩
  rw [h.1]
  decide

/-! ### Claims C3, C9, C10: flush and subscriber registration -/

/-- Claim C3: `writeRequestTraceToStorage` resets `requestTrace` to a
fresh empty map — the reset runs in a deferred function, so it happens
regardless of which per-model JSON serializations or key/value writes
failed — and no other cache field is modified by the flush. -/
theorem writeRequestTrace_clears_trace_only (c : CacheState) (roundT : Int)
    (marshalOk : Smap Int → Bool) (redisOk : String → Bool) :
    (writeRequestTraceToStorage c roundT marshalOk redisOk).1.requestTrace = [] ∧
    (writeRequestTraceToStorage c roundT marshalOk redisOk).1.metricsMap = c.metricsMap ∧
    (writeRequestTraceToStorage c roundT marshalOk redisOk).1.modelMetrics = c.modelMetrics ∧
    (writeRequestTraceToStorage c roundT marshalOk redisOk).1.pods = c.pods ∧
    (writeRequestTraceToStorage c roundT marshalOk redisOk).1.podMetrics = c.podMetrics ∧
    (writeRequestTraceToStorage c roundT marshalOk redisOk).1.podToModelMapping
      = c.podToModelMapping ∧
    (writeRequestTraceToStorage c roundT marshalOk redisOk).1.modelToPodMapping
      = c.modelToPodMapping ∧
    (writeRequestTraceToStorage c roundT marshalOk redisOk).1.subscribers = c.subscribers :=
  ⟨rfl, rfl, rfl, rfl, rfl, rfl, rfl, rfl⟩

/-- Claim C9: a trace-ticker firing with an empty `requestTrace` map is
skipped by the `len(instance.requestTrace) == 0` guard: zero writes are
issued to the external key/value store and the cache state is returned
unchanged. -/
theorem traceTick_empty_noop (c : CacheState) (nowUnix : Int)
    (marshalOk : Smap Int → Bool) (redisOk : String → Bool)
    (h : Smap.isEmpty c.requestTrace = true) :
    traceTick c nowUnix marshalOk redisOk = (c, []) := by
  unfold traceTick
  rw [if_pos h]

theorem traceTick_empty_noop_witness :
    Smap.isEmpty newCacheState.requestTrace = true ∧
    traceTick newCacheState 1700000007 (fun _ => true) (fun _ => true)
      = (newCacheState, []) :=
  ⟨rfl, traceTick_empty_noop newCacheState 1700000007 (fun _ => true) (fun _ => true) rfl⟩

/-- Claim C10 is refuted by the code: `NewCache` builds the instance
without initializing the `metrics` field, so it stays a nil map, and
`AddSubscriber` — for any subscriber with a non-empty subscribed-metrics
list — reaches the assignment `c.metrics[metric] = "yes"` inside
`aggregateMetrics`, which panics at run time ("assignment to entry in nil
map").  The sibling `updateModelMetrics` guards the analogous nil
`ModelMetrics` map, so the missing guard here contradicts the intended
no-panic behavior the spec states. -/
theorem addSubscriber_nil_map_panics :
    AddSubscriber newCacheState ["metric1"]
      = Except.error "assignment to entry in nil map" := rfl

/-! ### Claim C2: pending counter at quiescence (spec-modelled) -/

theorem sum_map_set (f : List ReqEvent → Int) (ws : List (List ReqEvent)) (i : Nat)
    (w y : List ReqEvent) (h : ws[i]? = some y) :
    ((ws.set i w).map f).sum = (ws.map f).sum - f y + f w := by
  induction ws generalizing i with
  | nil => simp at h
  | cons a t ih =>
    cases i with
    | zero =>
      simp only [List.getElem?_cons_zero, Option.some_inj] at h
      subst h
      simp only [List.set_cons_zero, List.map_cons, List.sum_cons]
      ring
    | succ j =>
      simp only [List.getElem?_cons_succ] at h
      simp only [List.set_cons_succ, List.map_cons, List.sum_cons, ih j h]
      ring

theorem remainingDelta_cons (e : ReqEvent) (w : List ReqEvent) :
    remainingDelta (e :: w) = remainingDelta w + eventDelta e := by
  cases e <;> simp [remainingDelta, eventDelta, List.count_cons] <;> ring

theorem step_invariant (s t : TraceSystem) (h : TraceStep s t) :
    t.pending + ((t.workers.map remainingDelta).sum)
      = s.pending + ((s.workers.map remainingDelta).sum) := by
  cases h with
  | exec pending workers i e rest hget =>
    simp only
    rw [sum_map_set remainingDelta workers i rest (e :: rest) hget, remainingDelta_cons]
    ring

theorem reaches_invariant (s t : TraceSystem) (h : Reaches s t) :
    t.pending + ((t.workers.map remainingDelta).sum)
      = s.pending + ((s.workers.map remainingDelta).sum) := by
  induction h with
  | refl => rfl
  | tail hreach hstep ih => rw [step_invariant _ _ hstep, ih]

theorem remainingDelta_workerProgram (n : Nat) : remainingDelta (workerProgram n) = 0 := by
  induction n with
  | zero => rfl
  | succ k ih =>
    unfold workerProgram at ih ⊢
    rw [List.replicate_succ, List.flatten_cons]
    have hcons : ([ReqEvent.add, ReqEvent.done] ++
        (List.replicate k [ReqEvent.add, ReqEvent.done]).flatten)
        = ReqEvent.add :: ReqEvent.done ::
          (List.replicate k [ReqEvent.add, ReqEvent.done]).flatten := rfl
    rw [hcons, remainingDelta_cons, remainingDelta_cons, ih]
    decide

theorem initSystem_sum (m n : Nat) :
    ((initSystem m n).workers.map remainingDelta).sum = 0 := by
  unfold initSystem
  simp [List.map_replicate, remainingDelta_workerProgram]

theorem quiescent_sum (s : TraceSystem) (h : quiescent s = true) :
    ((s.workers.map remainingDelta).sum) = 0 := by
  unfold quiescent at h
  rw [List.all_eq_true] at h
  apply List.sum_eq_zero
  intro x hx
  rw [List.mem_map] at hx
  obtain ⟨w, hw, rfl⟩ := hx
  have hempty := h w hw
  rw [List.isEmpty_iff] at hempty
  rw [hempty]
  rfl

/-- Claim C2 (spec-modelled): for `m` concurrent workers each running `n`
iterations of `AddRequestCount` followed by the matching
`DoneRequestTrace` against the pending counter of one model — each call an
atomic increment or decrement — the counter is exactly 0 in every
quiescent state reachable under any interleaving of the workers. -/
theorem pending_zero_at_quiescence (m n : Nat) (s : TraceSystem)
    (hreach : Reaches (initSystem m n) s) (hq : quiescent s = true) :
    s.pending = 0 := by
  have hinv := reaches_invariant (initSystem m n) s hreach
  rw [quiescent_sum s hq, initSystem_sum m n] at hinv
  have hinit : (initSystem m n).pending = 0 := rfl
  omega

theorem pending_zero_at_quiescence_witness :
    Reaches (initSystem 1 1) ⟨0, [[]]⟩ ∧ quiescent ⟨0, [[]]⟩ = true ∧
    (TraceSystem.mk 0 [[]]).pending = 0 := by
  have hstep1 : TraceStep (initSystem 1 1) ⟨1, [[ReqEvent.done]]⟩ :=
    TraceStep.exec 0 [[ReqEvent.add, ReqEvent.done]] 0 ReqEvent.add [ReqEvent.done] rfl
  have hstep2 : TraceStep ⟨1, [[ReqEvent.done]]⟩ ⟨0, [[]]⟩ :=
    TraceStep.exec 1 [[ReqEvent.done]] 0 ReqEvent.done [] rfl
  have hreach : Reaches (initSystem 1 1) ⟨0, [[]]⟩ :=
    Reaches.tail (Reaches.tail (Reaches.refl _) hstep1) hstep2
  exact ⟨hreach, rfl, pending_zero_at_quiescence 1 1 ⟨0, [[]]⟩ hreach rfl⟩
